import Mathlib

/-!
# aichat: prompt templates, token budget and input splitting

A shallow embedding of `src/prompt.go` and `src/aichat.go`.

Modelling conventions.

* Go strings are Lean `String`s (sequences of code points); the `strings`
  functions used by the program are modelled on the character list.
* Go `int` is the 64 bit signed integer: values are `Int`, and every
  arithmetic operation of the program is followed by `wrapInt`.
* `float32` is modelled by its IEEE 754 bit pattern; the only operation the
  program applies to it is the comparison `v != 0`.
* The tokenizer and the completion client are external libraries and are
  parameters of the model.
* A loop that may fail to terminate takes a fuel argument and reports
  `Run.outOfFuel` when the fuel is used up.
-/

namespace Aichat

/-! ## Machine integers -/

/-- Two's complement wrap-around of a Go `int` (64 bit). -/
def wrapInt (x : Int) : Int :=
  (x + 9223372036854775808) % 18446744073709551616 - 9223372036854775808

/-! ## Errors and outcomes -/

/-- Errors the program returns. -/
inductive Error where
  /-- the error of `tokenizer.NewEncoder` or of `encoder.Encode` -/
  | tokenizer (msg : String)
  /-- `fmt.Errorf("allowed tokens for input is %d, but it should be greater than 0", result)` -/
  | budget (result : Int)
  /-- an error of the completion service -/
  | service (msg : String)
  /-- `fmt.Errorf("no choices")` -/
  | noChoices
  /-- a file system or YAML error -/
  | file (msg : String)
  deriving DecidableEq, Repr

/-- Outcome of running a Go function that may also panic or loop. -/
inductive Run (α : Type) where
  /-- returned a value and a nil error -/
  | ok (v : α)
  /-- returned a non-nil error -/
  | fail (e : Error)
  /-- run-time panic -/
  | panic
  /-- the fuel of the model was used up before the function returned -/
  | outOfFuel
  deriving DecidableEq, Repr

/-! ## The tokenizer (external library `go-gpt-3-encoder`) -/

/-- The encoder object: `Encode` may fail, `Decode` cannot. -/
structure Encoder where
  Encode : String → Except Error (List Int)
  Decode : List Int → String

/-- The tokenizer package: `NewEncoder` may fail. -/
structure Tokenizer where
  NewEncoder : Except Error Encoder

/-! ## Data model (`src/prompt.go`, lines 16-25) -/

/-- The `float32` type, by bit pattern. -/
structure Float32 where
  bits : Nat
  deriving DecidableEq, Repr

/-- Positive and negative zero: all bits but the sign bit are clear. -/
def Float32.isZero (f : Float32) : Bool :=
  f.bits % 2147483648 == 0

/-- The Go comparison `v != 0` on `float32` (true for NaN as well). -/
def Float32.ne0 (f : Float32) : Bool :=
  !f.isZero

/-- Same value up to the sign of zero. -/
def Float32.sameValue (a b : Float32) : Prop :=
  a = b ∨ (a.isZero = true ∧ b.isZero = true)

/-- The anonymous struct of `Prompt.Messages`. -/
structure PromptMessage where
  Role : String
  Content : String
  deriving DecidableEq, Repr

/-- The `Prompt` struct. -/
structure Prompt where
  Description : String
  InputMarker : String
  Messages : List PromptMessage
  Temperature : Float32
  MaxTokens : Int
  deriving DecidableEq, Repr

/-- The message type `gogpt.ChatCompletionMessage`. -/
structure ChatCompletionMessage where
  Role : String
  Content : String
  deriving DecidableEq, Repr

/-! ## Token accounting (`src/prompt.go`, lines 41-70) -/

/-- The loop of `CountTokens` over the messages that are left. -/
def countLoop (encoder : Encoder) : List PromptMessage → Int → Except Error Int
  | [], count => .ok count
  | message :: rest, count =>
    match encoder.Encode message.Content with
    | .error err => .error err
    | .ok encoded => countLoop encoder rest (wrapInt (count + encoded.length))

/-- The method `Prompt.CountTokens`. -/
def CountTokens (tok : Tokenizer) (p : Prompt) : Except Error Int :=
  match tok.NewEncoder with
  | .error err => .error err
  | .ok encoder => countLoop encoder p.Messages 0

/-- The method `Prompt.AllowedInputTokens`. -/
def AllowedInputTokens (tok : Tokenizer) (p : Prompt) : Except Error Int :=
  match CountTokens tok p with
  | .error err => .error err
  | .ok promptTokens =>
    let result := wrapInt (4096 - wrapInt (promptTokens + p.MaxTokens))
    if result ≤ 0 then .error (.budget result) else .ok result

/-- Number of tokens of a string, 0 when the encoder fails on it. -/
def tokenCount (encoder : Encoder) (s : String) : Nat :=
  match encoder.Encode s with
  | .ok encoded => encoded.length
  | .error _ => 0

/-- Sum of the token counts of the raw message contents of a template. -/
def promptTokenCount (encoder : Encoder) (p : Prompt) : Nat :=
  (p.Messages.map (fun m => tokenCount encoder m.Content)).sum

/-- A tokenizer for examples: one token per character, its code point. -/
def charEncoder : Encoder where
  Encode := fun s => .ok (s.data.map (fun c => (c.toNat : Int)))
  Decode := fun ts => String.mk (ts.map (fun t => Char.ofNat t.toNat))

/-- The example tokenizer as a package. -/
def charTokenizer : Tokenizer where
  NewEncoder := .ok charEncoder

/-! ## Functions of the Go package `strings` used by the program -/

/-- The loop of `strings.Replace` for a non-empty `old`: the leftmost match is
replaced and the scan resumes behind it. The fuel is the length of the text,
which is never used up since every step consumes a character. -/
def replaceLoop (old new : List Char) : Nat → List Char → List Char
  | 0, s => s
  | _ + 1, [] => []
  | fuel + 1, c :: cs =>
    if old.isPrefixOf (c :: cs) then
      new ++ replaceLoop old new fuel ((c :: cs).drop old.length)
    else
      c :: replaceLoop old new fuel cs

/-- The function `strings.ReplaceAll(s, old, new)`. It returns `s` when `old`
and `new` are equal; an empty `old` matches before every code point and at the
end of the string. -/
def ReplaceAll (s old new : String) : String :=
  if old = new then s
  else if old.data = [] then
    String.mk (new.data ++ s.data.flatMap (fun c => c :: new.data))
  else
    String.mk (replaceLoop old.data new.data s.data.length s.data)

/-- The function `strings.HasSuffix`. -/
def HasSuffix (s suffix : String) : Bool :=
  suffix.data.isSuffixOf s.data

/-- The function `strings.TrimSuffix`: at most one copy of the suffix is removed. -/
def TrimSuffix (s suffix : String) : String :=
  if HasSuffix s suffix then
    String.mk (s.data.take (s.data.length - suffix.data.length))
  else s

/-- The function `unicode.IsSpace`. -/
def IsSpace (c : Char) : Bool :=
  let r := c.toNat
  (9 ≤ r && r ≤ 13) || r == 32 || r == 133 || r == 160 || r == 5760 ||
  (8192 ≤ r && r ≤ 8202) || r == 8232 || r == 8233 || r == 8239 || r == 8287 ||
  r == 12288

/-- The function `strings.TrimSpace`. -/
def TrimSpace (s : String) : String :=
  String.mk ((s.data.dropWhile IsSpace).reverse.dropWhile IsSpace).reverse

/-! ## Expansion of a template (`src/prompt.go`, lines 27-39) -/

/-- The method `Prompt.CreateMessages`: the loop appends one message per
template message. -/
def CreateMessages (p : Prompt) (input : String) : List ChatCompletionMessage :=
  p.Messages.foldl
    (fun messages message =>
      messages ++ [{ Role := message.Role,
                     Content := ReplaceAll message.Content p.InputMarker input }])
    []

/-! ## Splitting (`src/prompt.go`, lines 72-110) -/

/-- The `for` loop of `splitStringWithTokensLimit`, one iteration per unit of
fuel. The slice expression `encoded[:tokensLimit]` panics for a negative
bound. -/
def splitLoop (encoder : Encoder) :
    Nat → List Int → Int → List String → Run (List String)
  | 0, _, _, _ => .outOfFuel
  | fuel + 1, encoded, tokensLimit, parts =>
    if encoded.length = 0 then .ok parts
    else if (encoded.length : Int) ≤ tokensLimit then
      .ok (parts ++ [encoder.Decode encoded])
    else if tokensLimit < 0 then .panic
    else
      splitLoop encoder fuel (encoded.drop tokensLimit.toNat) tokensLimit
        (parts ++ [encoder.Decode (encoded.take tokensLimit.toNat)])

/-- The function `splitStringWithTokensLimit`. -/
def splitStringWithTokensLimit (fuel : Nat) (tok : Tokenizer) (s : String)
    (tokensLimit : Int) : Run (List String) :=
  match tok.NewEncoder with
  | .error err => .fail err
  | .ok encoder =>
    match encoder.Encode s with
    | .error err => .fail err
    | .ok encoded => splitLoop encoder fuel encoded tokensLimit []

/-- The method `Prompt.CreateMessagesWithSplit`; `maxTokensOverride` is not
used by the body. -/
def CreateMessagesWithSplit (fuel : Nat) (tok : Tokenizer) (p : Prompt)
    (input : String) (_maxTokensOverride : Int) :
    Run (List (List ChatCompletionMessage)) :=
  match AllowedInputTokens tok p with
  | .error err => .fail err
  | .ok allowedInputTokens =>
    match splitStringWithTokensLimit fuel tok input allowedInputTokens with
    | .fail err => .fail err
    | .panic => .panic
    | .outOfFuel => .outOfFuel
    | .ok inputParts =>
      .ok (inputParts.foldl
        (fun messages inputPart => messages ++ [CreateMessages p inputPart]) [])

/-! ## Loading templates (`src/prompt.go`, lines 112-161) -/

/-- The constant `DefaultInputMarker`. -/
def DefaultInputMarker : String := "$INPUT"

/-- A directory entry as returned by `os.ReadDir`. -/
structure DirEntry where
  Name : String
  IsDir : Bool
  deriving DecidableEq, Repr

/-- The file system and the YAML decoder, both external. `ReadYamlFromFile`
gives the template decoded from a file into a zero `Prompt`. -/
structure FileSystem where
  ReadDir : String → Except Error (List DirEntry)
  ReadYamlFromFile : String → Except Error Prompt

/-- The function `NewPromptFromFile`. -/
def NewPromptFromFile (fs : FileSystem) (filename : String) : Except Error Prompt :=
  match fs.ReadYamlFromFile filename with
  | .error err => .error err
  | .ok prompt =>
    if prompt.InputMarker = "" then
      .ok { prompt with InputMarker := DefaultInputMarker }
    else .ok prompt

/-- The name under which `ReadPromptsInDir` registers a file (lines 156-157). -/
def promptName (fileName : String) : String :=
  TrimSuffix (TrimSuffix fileName ".yaml") ".yml"

/-- The Go map assignment `prompts[name] = prompt` on an association list. -/
def mapSet (prompts : List (String × Prompt)) (name : String) (prompt : Prompt) :
    List (String × Prompt) :=
  (name, prompt) :: prompts.filter (fun kv => kv.1 ≠ name)

/-- The loop of `ReadPromptsInDir` over the directory entries that are left. -/
def readLoop (fs : FileSystem) (dirname : String) :
    List DirEntry → List (String × Prompt) → Except Error (List (String × Prompt))
  | [], prompts => .ok prompts
  | file :: rest, prompts =>
    if file.IsDir then readLoop fs dirname rest prompts
    else if !HasSuffix file.Name ".yaml" && !HasSuffix file.Name ".yml" then
      readLoop fs dirname rest prompts
    else
      match NewPromptFromFile fs (dirname ++ "/" ++ file.Name) with
      | .error err => .error err
      | .ok prompt =>
        readLoop fs dirname rest (mapSet prompts (promptName file.Name) prompt)

/-- The function `ReadPromptsInDir`. -/
def ReadPromptsInDir (fs : FileSystem) (dirname : String) :
    Except Error (List (String × Prompt)) :=
  match fs.ReadDir dirname with
  | .error err => .error err
  | .ok files => readLoop fs dirname files []

/-! ## The chat driver (`src/aichat.go`) -/

/-- The struct `chatOptions`. -/
structure chatOptions where
  temperature : Float32
  maxTokens : Int
  deriving DecidableEq, Repr

/-- The request type `gogpt.ChatCompletionRequest`, with the fields the program sets. -/
structure ChatCompletionRequest where
  Model : String
  Messages : List ChatCompletionMessage
  Temperature : Float32
  MaxTokens : Int
  deriving DecidableEq, Repr

/-- The choice type `gogpt.ChatCompletionChoice`, with the field the program reads. -/
structure ChatCompletionChoice where
  Message : ChatCompletionMessage
  deriving DecidableEq, Repr

/-- The response type `gogpt.ChatCompletionResponse`. -/
structure ChatCompletionResponse where
  Choices : List ChatCompletionChoice
  deriving DecidableEq, Repr

/-- The completion client, external. -/
structure Client where
  CreateChatCompletion : ChatCompletionRequest → Except Error ChatCompletionResponse

/-- The struct `AIChat`. -/
structure AIChat where
  client : Client
  options : chatOptions

/-- The constant `gogpt.GPT3Dot5Turbo`. -/
def GPT3Dot5Turbo : String := "gpt-3.5-turbo"

/-- The constant `gogpt.ChatMessageRoleUser`. -/
def ChatMessageRoleUser : String := "user"

/-- The constant `gogpt.ChatMessageRoleAssistant`. -/
def ChatMessageRoleAssistant : String := "assistant"

/-- What `stdChatLoop` has done so far: the local variable `messages`, the
requests sent to the service and the text printed, oldest first. -/
structure LoopState where
  messages : List ChatCompletionMessage
  requests : List ChatCompletionRequest
  printed : List String
  deriving DecidableEq, Repr

/-- The `for scanner.Scan()` loop of `stdChatLoop` over the lines that are left;
`scanErr` is what `scanner.Err()` returns at the end of the input. The result is
the returned error (`none` for nil) and the final state. -/
def chatLoop (aiChat : AIChat) (scanErr : Option Error) :
    List String → LoopState → Option Error × LoopState
  | [], st => (scanErr, st)
  | line :: rest, st =>
    let input := TrimSpace line
    if input = "" then
      (none, { st with printed := st.printed ++ ["Empty input. Exiting...\n"] })
    else
      let messages := st.messages ++
        [{ Role := ChatMessageRoleUser, Content := input }]
      let request : ChatCompletionRequest :=
        { Model := GPT3Dot5Turbo
          Messages := messages
          Temperature := aiChat.options.temperature
          MaxTokens := aiChat.options.maxTokens }
      let st1 : LoopState :=
        { messages := messages, requests := st.requests ++ [request],
          printed := st.printed }
      match aiChat.client.CreateChatCompletion request with
      | .error err => (some err, st1)
      | .ok response =>
        match response.Choices with
        | [] => (some .noChoices, st1)
        | choice :: _ =>
          chatLoop aiChat scanErr rest
            { st1 with printed := st1.printed ++
                ["assistant: " ++ choice.Message.Content ++ "\n", "user: "] }

/-- The method `AIChat.stdChatLoop` on the lines of standard input. -/
def stdChatLoop (aiChat : AIChat) (scanErr : Option Error) (lines : List String) :
    Option Error × LoopState :=
  chatLoop aiChat scanErr lines { messages := [], requests := [], printed := ["user: "] }

/-- The function `firstNonZeroInt`. -/
def firstNonZeroInt : List Int → Int
  | [] => 0
  | v :: rest => if v ≠ 0 then v else firstNonZeroInt rest

/-- The function `firstNonZeroFloat32`. -/
def firstNonZeroFloat32 : List Float32 → Float32
  | [] => ⟨0⟩
  | v :: rest => if v.ne0 then v else firstNonZeroFloat32 rest

/-- The request `main` builds in the templated mode (lines 140-149). -/
def singleShotRequest (aiChat : AIChat) (prompt : Prompt) (input : String) :
    ChatCompletionRequest :=
  { Model := GPT3Dot5Turbo
    Messages := CreateMessages prompt input
    Temperature := firstNonZeroFloat32 [prompt.Temperature, aiChat.options.temperature]
    MaxTokens := firstNonZeroInt [prompt.MaxTokens, aiChat.options.maxTokens] }

/-! ## Examples -/

/-- A template for examples: two messages, the second holding the marker. -/
def translatePrompt : Prompt :=
  { Description := "translate", InputMarker := "$INPUT",
    Messages := [{ Role := "system", Content := "Be brief." },
                 { Role := "user", Content := "Translate: $INPUT" }],
    Temperature := ⟨0⟩, MaxTokens := 100 }

/-- A template of 5000 messages with the content "a", one token each, whose
`MaxTokens` is the largest 64 bit integer. -/
def bigPrompt : Prompt :=
  { Description := "", InputMarker := "$INPUT",
    Messages := List.replicate 5000 { Role := "user", Content := "a" },
    Temperature := ⟨0⟩, MaxTokens := 9223372036854775807 }

/-- The UTF-8 bytes of a character. -/
def utf8Bytes (c : Char) : List Int :=
  let n : Int := c.toNat
  if n < 128 then [n]
  else if n < 2048 then [192 + n / 64, 128 + n % 64]
  else if n < 65536 then [224 + n / 4096, 128 + n / 64 % 64, 128 + n % 64]
  else [240 + n / 262144, 128 + n / 4096 % 64, 128 + n / 64 % 64, 128 + n % 64]

/-- Length of the UTF-8 sequence a byte starts, 0 for a byte that starts none. -/
def utf8Length (b : Int) : Nat :=
  if 0 ≤ b ∧ b < 128 then 1
  else if 192 ≤ b ∧ b < 224 then 2
  else if 224 ≤ b ∧ b < 240 then 3
  else if 240 ≤ b ∧ b < 248 then 4
  else 0

/-- The payload bits of the first byte of a UTF-8 sequence of the given length. -/
def utf8Lead (b : Int) (n : Nat) : Int :=
  if n = 1 then b else if n = 2 then b - 192 else if n = 3 then b - 224 else b - 240

/-- Reading bytes back as characters: a complete UTF-8 sequence gives its
character, any other byte gives U+FFFD. The fuel is the number of bytes. -/
def utf8Chars : Nat → List Int → List Char
  | 0, _ => []
  | _ + 1, [] => []
  | fuel + 1, b :: rest =>
    let n := utf8Length b
    let tail := rest.take (n - 1)
    if 1 ≤ n ∧ tail.length = n - 1 ∧ tail.all (fun x => 128 ≤ x && x < 192) then
      Char.ofNat (tail.foldl (fun acc x => acc * 64 + (x - 128)) (utf8Lead b n)).toNat
        :: utf8Chars fuel (rest.drop (n - 1))
    else
      Char.ofNat 65533 :: utf8Chars fuel rest

/-- A byte-level tokenizer for examples: one token per UTF-8 byte. A chunk that
ends inside a character does not decode to the text it was cut from. -/
def byteEncoder : Encoder where
  Encode := fun s => .ok (s.data.flatMap utf8Bytes)
  Decode := fun ts => String.mk (utf8Chars ts.length ts)

/-- The byte-level tokenizer as a package. -/
def byteTokenizer : Tokenizer where
  NewEncoder := .ok byteEncoder

/-- A template of one message that is the input marker "a", one token, with
4094 tokens reserved for the reply: one token is left for the input. -/
def narrowPrompt : Prompt :=
  { Description := "", InputMarker := "a",
    Messages := [{ Role := "user", Content := "a" }],
    Temperature := ⟨0⟩, MaxTokens := 4094 }

/-- A completion client for examples: it always answers with one choice, an
assistant message "hi". -/
def echoClient : Client where
  CreateChatCompletion := fun _ =>
    .ok { Choices := [{ Message := { Role := ChatMessageRoleAssistant, Content := "hi" } }] }

/-- The chat driver of the examples, with the default options of `main`
(temperature 0.5, 500 tokens). -/
def echoChat : AIChat :=
  { client := echoClient, options := { temperature := ⟨1056964608⟩, maxTokens := 500 } }

/-- A directory for examples: the one file `a.yml.yaml`, which decodes to
`translatePrompt`. -/
def exampleFS : FileSystem where
  ReadDir := fun _ => .ok [{ Name := "a.yml.yaml", IsDir := false }]
  ReadYamlFromFile := fun _ => .ok translatePrompt

/-! ## Expansion: count, order, roles and untouched contents -/

theorem foldl_append_singleton {α β : Type} (f : α → β) (l : List α) (init : List β) :
    l.foldl (fun acc x => acc ++ [f x]) init = init ++ l.map f := by
  induction l generalizing init with
  | nil => simp
  | cons x xs ih => simp [ih]

theorem CreateMessages_eq_map (p : Prompt) (input : String) :
    CreateMessages p input =
      p.Messages.map (fun message =>
        ({ Role := message.Role,
           Content := ReplaceAll message.Content p.InputMarker input } :
          ChatCompletionMessage)) := by
  unfold CreateMessages
  rw [foldl_append_singleton]
  simp

theorem replaceLoop_of_absent (old new : List Char) (fuel : Nat) (s : List Char)
    (h : ¬ old <:+: s) : replaceLoop old new fuel s = s := by
  induction fuel generalizing s with
  | zero => rfl
  | succ fuel ih =>
    cases s with
    | nil => rfl
    | cons c cs =>
      have hp : ¬ old <+: c :: cs := fun hp => h hp.isInfix
      have ht : ¬ old <:+: cs := fun ht =>
        h (ht.trans (List.suffix_cons c cs).isInfix)
      simp only [replaceLoop, List.isPrefixOf_iff_prefix, hp, if_false, ih cs ht]

theorem ReplaceAll_of_absent (s old new : String) (h : ¬ old.data <:+: s.data) :
    ReplaceAll s old new = s := by
  unfold ReplaceAll
  split
  · rfl
  · split
    · rename_i h0
      exact absurd (h0 ▸ (List.nil_infix : [] <:+: s.data)) h
    · rw [replaceLoop_of_absent _ _ _ _ h]

/-- C4: `CreateMessages` returns as many messages as the template has, and the
role of the i-th returned message is the role of the i-th template message. -/
theorem CreateMessages_preserves_roles (p : Prompt) (input : String) :
    (CreateMessages p input).length = p.Messages.length ∧
    ∀ i : Nat, ((CreateMessages p input)[i]?).map (fun m => m.Role) =
      (p.Messages[i]?).map (fun m => m.Role) := by
  rw [CreateMessages_eq_map]
  refine ⟨by simp, fun i => ?_⟩
  rw [List.getElem?_map]
  cases p.Messages[i]? <;> rfl

/-- C5: a template message whose content does not contain the input marker as
a substring is returned by `CreateMessages` at the same position with the same
role and its content unchanged. -/
theorem CreateMessages_content_unchanged (p : Prompt) (input : String) (i : Nat)
    (message : PromptMessage) (hi : p.Messages[i]? = some message)
    (hm : ¬ p.InputMarker.data <:+: message.Content.data) :
    (CreateMessages p input)[i]? =
      some { Role := message.Role, Content := message.Content } := by
  rw [CreateMessages_eq_map, List.getElem?_map, hi]
  simp [ReplaceAll_of_absent _ _ _ hm]

theorem CreateMessages_content_unchanged_witness :
    (CreateMessages
      { Description := "", InputMarker := "$INPUT",
        Messages := [{ Role := "system", Content := "Be brief." },
                     { Role := "user", Content := "Translate: $INPUT" }],
        Temperature := ⟨0⟩, MaxTokens := 100 } "bonjour")[0]? =
      some { Role := "system", Content := "Be brief." } :=
  CreateMessages_content_unchanged _ "bonjour" 0
    { Role := "system", Content := "Be brief." } rfl (by decide)

/-! ## Generation options of the templated request -/

theorem firstNonZeroInt_eq_find (l : List Int) :
    firstNonZeroInt l = (l.find? (fun v => decide (v ≠ 0))).getD 0 := by
  induction l with
  | nil => rfl
  | cons v rest ih =>
    by_cases hv : v = 0 <;> simp [firstNonZeroInt, List.find?, hv, ih]

theorem firstNonZeroFloat32_eq_find (l : List Float32) :
    firstNonZeroFloat32 l = (l.find? (fun v => v.ne0)).getD ⟨0⟩ := by
  induction l with
  | nil => rfl
  | cons v rest ih =>
    cases hv : v.ne0 <;> simp [firstNonZeroFloat32, List.find?, hv, ih]

/-- C7: the templated request carries the template's `MaxTokens` when it is
non-zero and the process default otherwise, and the template's `Temperature`
when it is non-zero and otherwise a value equal to the process default (the
default itself, or 0 when the default is a zero); `firstNonZeroInt` and
`firstNonZeroFloat32` return their first non-zero argument, or 0 when there is
none. -/
theorem singleShotRequest_options (aiChat : AIChat) (prompt : Prompt) (input : String)
    (ints : List Int) (floats : List Float32) :
    (singleShotRequest aiChat prompt input).MaxTokens =
      (if prompt.MaxTokens ≠ 0 then prompt.MaxTokens else aiChat.options.maxTokens) ∧
    (singleShotRequest aiChat prompt input).Temperature =
      (if prompt.Temperature.ne0 then prompt.Temperature
       else if aiChat.options.temperature.ne0 then aiChat.options.temperature
       else ⟨0⟩) ∧
    Float32.sameValue (singleShotRequest aiChat prompt input).Temperature
      (if prompt.Temperature.ne0 then prompt.Temperature
       else aiChat.options.temperature) ∧
    firstNonZeroInt ints = (ints.find? (fun v => decide (v ≠ 0))).getD 0 ∧
    firstNonZeroFloat32 floats = (floats.find? (fun v => v.ne0)).getD ⟨0⟩ := by
  refine ⟨?_, ?_, ?_, firstNonZeroInt_eq_find ints, firstNonZeroFloat32_eq_find floats⟩
  · by_cases h1 : prompt.MaxTokens = 0
    · by_cases h2 : aiChat.options.maxTokens = 0 <;>
        simp [singleShotRequest, firstNonZeroInt, h1, h2]
    · simp [singleShotRequest, firstNonZeroInt, h1]
  · simp only [singleShotRequest, firstNonZeroFloat32]
  · simp only [singleShotRequest, firstNonZeroFloat32, Float32.sameValue]
    cases h1 : prompt.Temperature.ne0
    · cases h2 : aiChat.options.temperature.ne0
      · right
        simp only [Float32.ne0, Bool.not_eq_false'] at h2
        simp only [Bool.false_eq_true, if_false, h2, and_true]
        rfl
      · left; simp
    · left; simp

/-! ## The input budget -/

theorem wrapInt_eq (x : Int) : ∃ k : Int, wrapInt x = x + k * 18446744073709551616 :=
  ⟨-((x + 9223372036854775808) / 18446744073709551616), by unfold wrapInt; omega⟩

theorem wrapInt_of_range (x : Int) (k : Int) (hlo : -9223372036854775808 ≤ x)
    (hhi : x < 9223372036854775808) :
    wrapInt (x + k * 18446744073709551616) = x := by
  unfold wrapInt; omega

theorem countLoop_ok (encoder : Encoder) (messages : List PromptMessage) (count : Int)
    (hEnc : ∀ m ∈ messages, ∃ ts, encoder.Encode m.Content = .ok ts) :
    ∃ k : Int, countLoop encoder messages count =
      .ok (count + ((messages.map (fun m => tokenCount encoder m.Content)).sum : Nat)
        + k * 18446744073709551616) := by
  induction messages generalizing count with
  | nil => exact ⟨0, by simp [countLoop]⟩
  | cons m rest ih =>
    obtain ⟨ts, hts⟩ := hEnc m (List.mem_cons_self m rest)
    obtain ⟨k1, hk1⟩ := wrapInt_eq (count + ts.length)
    obtain ⟨k2, hk2⟩ := ih (wrapInt (count + ts.length))
      (fun m' hm' => hEnc m' (List.mem_cons_of_mem m hm'))
    have htc : tokenCount encoder m.Content = ts.length := by simp [tokenCount, hts]
    refine ⟨k1 + k2, ?_⟩
    simp only [countLoop, hts]
    rw [hk2, hk1, List.map_cons, List.sum_cons, htc]
    congr 1
    push_cast
    ring

theorem CountTokens_ok (tok : Tokenizer) (encoder : Encoder) (p : Prompt)
    (hNew : tok.NewEncoder = .ok encoder)
    (hEnc : ∀ m ∈ p.Messages, ∃ ts, encoder.Encode m.Content = .ok ts) :
    ∃ k : Int, CountTokens tok p =
      .ok ((promptTokenCount encoder p : Int) + k * 18446744073709551616) := by
  obtain ⟨k, hk⟩ := countLoop_ok encoder p.Messages 0 hEnc
  exact ⟨k, by simp only [CountTokens, hNew, hk, promptTokenCount, zero_add]⟩

theorem AllowedInputTokens_eq (tok : Tokenizer) (encoder : Encoder) (p : Prompt)
    (hNew : tok.NewEncoder = .ok encoder)
    (hEnc : ∀ m ∈ p.Messages, ∃ ts, encoder.Encode m.Content = .ok ts)
    (hlo : 4096 - 9223372036854775808 < (promptTokenCount encoder p : Int) + p.MaxTokens)
    (hhi : (promptTokenCount encoder p : Int) + p.MaxTokens ≤ 4096 + 9223372036854775808) :
    AllowedInputTokens tok p =
      if 4096 ≤ (promptTokenCount encoder p : Int) + p.MaxTokens then
        .error (.budget (4096 - promptTokenCount encoder p - p.MaxTokens))
      else .ok (4096 - promptTokenCount encoder p - p.MaxTokens) := by
  obtain ⟨k, hk⟩ := CountTokens_ok tok encoder p hNew hEnc
  obtain ⟨k1, hk1⟩ := wrapInt_eq ((promptTokenCount encoder p : Int)
    + k * 18446744073709551616 + p.MaxTokens)
  have hres : wrapInt (4096 - wrapInt ((promptTokenCount encoder p : Int)
      + k * 18446744073709551616 + p.MaxTokens)) =
      4096 - promptTokenCount encoder p - p.MaxTokens := by
    rw [hk1]
    have := wrapInt_of_range (4096 - promptTokenCount encoder p - p.MaxTokens)
      (-k - k1) (by omega) (by omega)
    rw [← this]
    congr 1
    ring
  simp only [AllowedInputTokens, hk, hres]
  by_cases h : 4096 ≤ (promptTokenCount encoder p : Int) + p.MaxTokens
  · rw [if_pos h, if_pos (by omega)]
  · rw [if_neg h, if_neg (by omega)]

/-- C1, as amended: with the tokenizer succeeding and the sum of the prompt
token count and `MaxTokens` within 2^63 of 4096 (so that the 64 bit
subtraction does not wrap), `AllowedInputTokens` returns an error exactly when
promptTokens + MaxTokens >= 4096 and otherwise returns
4096 - promptTokens - MaxTokens, which is positive. -/
theorem AllowedInputTokens_spec (tok : Tokenizer) (encoder : Encoder) (p : Prompt)
    (hNew : tok.NewEncoder = .ok encoder)
    (hEnc : ∀ m ∈ p.Messages, ∃ ts, encoder.Encode m.Content = .ok ts)
    (hlo : 4096 - 9223372036854775808 < (promptTokenCount encoder p : Int) + p.MaxTokens)
    (hhi : (promptTokenCount encoder p : Int) + p.MaxTokens ≤ 4096 + 9223372036854775808) :
    ((∃ e, AllowedInputTokens tok p = .error e) ↔
      4096 ≤ (promptTokenCount encoder p : Int) + p.MaxTokens) ∧
    ((promptTokenCount encoder p : Int) + p.MaxTokens < 4096 →
      AllowedInputTokens tok p = .ok (4096 - promptTokenCount encoder p - p.MaxTokens) ∧
      0 < 4096 - (promptTokenCount encoder p : Int) - p.MaxTokens) := by
  rw [AllowedInputTokens_eq tok encoder p hNew hEnc hlo hhi]
  by_cases h : 4096 ≤ (promptTokenCount encoder p : Int) + p.MaxTokens
  · rw [if_pos h]
    exact ⟨⟨fun _ => h, fun _ => ⟨_, rfl⟩⟩, fun h' => absurd h (by omega)⟩
  · rw [if_neg h]
    refine ⟨⟨fun ⟨e, he⟩ => ?_, fun h' => absurd h' h⟩, fun _ => ⟨rfl, by omega⟩⟩
    cases he

theorem AllowedInputTokens_spec_witness :
    ((∃ e, AllowedInputTokens charTokenizer translatePrompt = .error e) ↔
      4096 ≤ (promptTokenCount charEncoder translatePrompt : Int)
        + translatePrompt.MaxTokens) ∧
    ((promptTokenCount charEncoder translatePrompt : Int)
        + translatePrompt.MaxTokens < 4096 →
      AllowedInputTokens charTokenizer translatePrompt =
        .ok (4096 - promptTokenCount charEncoder translatePrompt
          - translatePrompt.MaxTokens) ∧
      0 < 4096 - (promptTokenCount charEncoder translatePrompt : Int)
        - translatePrompt.MaxTokens) :=
  AllowedInputTokens_spec charTokenizer charEncoder translatePrompt rfl
    (fun _ _ => ⟨_, rfl⟩) (by decide) (by decide)

/-- C1 fails as stated: for the template without messages and with
`MaxTokens` = -2^63 the sum promptTokens + MaxTokens is below 4096, and
`AllowedInputTokens` returns an error, the subtraction having wrapped. -/
theorem AllowedInputTokens_wraps :
    (promptTokenCount charEncoder
        { Description := "", InputMarker := "$INPUT", Messages := [],
          Temperature := ⟨0⟩, MaxTokens := -9223372036854775808 } : Int)
      + (-9223372036854775808) < 4096 ∧
    AllowedInputTokens charTokenizer
        { Description := "", InputMarker := "$INPUT", Messages := [],
          Temperature := ⟨0⟩, MaxTokens := -9223372036854775808 } =
      .error (.budget (-9223372036854771712)) :=
  ⟨by decide, rfl⟩

/-! ## Splitting into chunks of tokens -/

theorem splitLoop_chunks (encoder : Encoder) (tokensLimit : Int) (hl : 1 ≤ tokensLimit)
    (fuel : Nat) (encoded : List Int) (parts result : List String)
    (h : splitLoop encoder fuel encoded tokensLimit parts = .ok result) :
    ∃ chunks : List (List Int),
      result = parts ++ chunks.map encoder.Decode ∧ chunks.flatten = encoded ∧
      ∀ c ∈ chunks, 1 ≤ c.length ∧ (c.length : Int) ≤ tokensLimit := by
  induction fuel generalizing encoded parts with
  | zero => simp [splitLoop] at h
  | succ fuel ih =>
    rw [splitLoop] at h
    by_cases h0 : encoded.length = 0
    · rw [if_pos h0] at h
      refine ⟨[], ?_, ?_, ?_⟩
      · simpa using (Run.ok.inj h).symm
      · simpa using (List.length_eq_zero.mp h0).symm
      · simp
    · rw [if_neg h0] at h
      by_cases h1 : (encoded.length : Int) ≤ tokensLimit
      · rw [if_pos h1] at h
        refine ⟨[encoded], ?_, by simp, ?_⟩
        · simpa using (Run.ok.inj h).symm
        · intro c hc
          simp only [List.mem_singleton] at hc
          subst hc
          exact ⟨by omega, h1⟩
      · rw [if_neg h1, if_neg (by omega)] at h
        obtain ⟨chunks, hres, hjoin, hall⟩ := ih _ _ h
        refine ⟨encoded.take tokensLimit.toNat :: chunks, ?_, ?_, ?_⟩
        · simp [hres]
        · simp [hjoin]
        · intro c hc
          rcases List.mem_cons.mp hc with rfl | hc
          · rw [List.length_take]
            omega
          · exact hall c hc

theorem splitLoop_terminates (encoder : Encoder) (tokensLimit : Int) (hl : 1 ≤ tokensLimit)
    (fuel : Nat) (encoded : List Int) (parts : List String)
    (hf : encoded.length < fuel) :
    ∃ result, splitLoop encoder fuel encoded tokensLimit parts = .ok result := by
  induction fuel generalizing encoded parts with
  | zero => omega
  | succ fuel ih =>
    rw [splitLoop]
    by_cases h0 : encoded.length = 0
    · exact ⟨_, by rw [if_pos h0]⟩
    · rw [if_neg h0]
      by_cases h1 : (encoded.length : Int) ≤ tokensLimit
      · exact ⟨_, by rw [if_pos h1]⟩
      · rw [if_neg h1, if_neg (by omega)]
        apply ih
        rw [List.length_drop]
        omega

theorem splitLoop_nil (encoder : Encoder) (tokensLimit : Int) (fuel : Nat)
    (parts : List String) :
    splitLoop encoder (fuel + 1) [] tokensLimit parts = .ok parts := by
  simp [splitLoop]

/-- C2: with the tokenizer succeeding on the input and enough fuel for one
iteration per token and one more, `splitStringWithTokensLimit` returns; for a
limit of at least 1 the segments are the decoded chunks of a cut of the token
sequence into contiguous chunks, in order, of at least 1 and at most
`tokensLimit` tokens each, whose concatenation is the token sequence; for an
empty token sequence it returns no segment, whatever the limit. -/
theorem splitStringWithTokensLimit_chunks (tok : Tokenizer) (encoder : Encoder)
    (s : String) (tokens : List Int) (tokensLimit : Int) (fuel : Nat)
    (hNew : tok.NewEncoder = .ok encoder) (hEnc : encoder.Encode s = .ok tokens)
    (hf : tokens.length < fuel) :
    (1 ≤ tokensLimit →
      ∃ chunks : List (List Int),
        splitStringWithTokensLimit fuel tok s tokensLimit =
          .ok (chunks.map encoder.Decode) ∧
        chunks.flatten = tokens ∧
        ∀ c ∈ chunks, 1 ≤ c.length ∧ (c.length : Int) ≤ tokensLimit) ∧
    (tokens = [] → splitStringWithTokensLimit fuel tok s tokensLimit = .ok []) := by
  simp only [splitStringWithTokensLimit, hNew, hEnc]
  constructor
  · intro hl
    obtain ⟨result, hres⟩ := splitLoop_terminates encoder tokensLimit hl fuel tokens [] hf
    obtain ⟨chunks, hparts, hjoin, hall⟩ :=
      splitLoop_chunks encoder tokensLimit hl fuel tokens [] result hres
    exact ⟨chunks, by rw [hres, hparts, List.nil_append], hjoin, hall⟩
  · intro ht
    subst ht
    obtain ⟨n, rfl⟩ : ∃ n, fuel = n + 1 := ⟨fuel - 1, by omega⟩
    exact splitLoop_nil encoder tokensLimit n []

theorem splitStringWithTokensLimit_chunks_witness :
    (1 ≤ (2 : Int) →
      ∃ chunks : List (List Int),
        splitStringWithTokensLimit 6 charTokenizer "hello" 2 =
          .ok (chunks.map charEncoder.Decode) ∧
        chunks.flatten = [104, 101, 108, 108, 111] ∧
        ∀ c ∈ chunks, 1 ≤ c.length ∧ (c.length : Int) ≤ 2) ∧
    (([104, 101, 108, 108, 111] : List Int) = [] →
      splitStringWithTokensLimit 6 charTokenizer "hello" 2 = .ok []) :=
  splitStringWithTokensLimit_chunks charTokenizer charEncoder "hello"
    [104, 101, 108, 108, 111] 2 6 rfl rfl (by decide)

/-! ## Expansion with splitting -/

theorem AllowedInputTokens_pos (tok : Tokenizer) (p : Prompt) (a : Int)
    (h : AllowedInputTokens tok p = .ok a) : 0 < a := by
  unfold AllowedInputTokens at h
  split at h
  · cases h
  · simp only at h
    split at h
    · cases h
    · cases h
      omega

theorem CreateMessagesWithSplit_of_error (fuel : Nat) (tok : Tokenizer) (p : Prompt)
    (input : String) (o : Int) (e : Error) (h : AllowedInputTokens tok p = .error e) :
    CreateMessagesWithSplit fuel tok p input o = .fail e := by
  simp only [CreateMessagesWithSplit, h]

theorem CreateMessagesWithSplit_of_ok (fuel : Nat) (tok : Tokenizer) (p : Prompt)
    (input : String) (o : Int) (a : Int) (parts : List String)
    (h : AllowedInputTokens tok p = .ok a)
    (hs : splitStringWithTokensLimit fuel tok input a = .ok parts) :
    CreateMessagesWithSplit fuel tok p input o = .ok (parts.map (CreateMessages p)) := by
  simp only [CreateMessagesWithSplit, h, hs, foldl_append_singleton, List.nil_append]

/-- C6: with the tokenizer succeeding on the input and enough fuel for the
split, `CreateMessagesWithSplit` fails exactly when `AllowedInputTokens` fails
(with the same error), and otherwise returns, in segment order, `CreateMessages`
of each segment of `splitStringWithTokensLimit(input, AllowedInputTokens)`. -/
theorem CreateMessagesWithSplit_spec (tok : Tokenizer) (encoder : Encoder) (p : Prompt)
    (input : String) (tokens : List Int) (fuel : Nat) (o : Int)
    (hNew : tok.NewEncoder = .ok encoder) (hIn : encoder.Encode input = .ok tokens)
    (hf : tokens.length < fuel) :
    ((∃ e, CreateMessagesWithSplit fuel tok p input o = .fail e) ↔
      (∃ e, AllowedInputTokens tok p = .error e)) ∧
    (∀ e, AllowedInputTokens tok p = .error e →
      CreateMessagesWithSplit fuel tok p input o = .fail e) ∧
    (∀ a, AllowedInputTokens tok p = .ok a →
      ∃ parts, splitStringWithTokensLimit fuel tok input a = .ok parts ∧
        CreateMessagesWithSplit fuel tok p input o =
          .ok (parts.map (CreateMessages p))) := by
  have hok : ∀ a, AllowedInputTokens tok p = .ok a →
      ∃ parts, splitStringWithTokensLimit fuel tok input a = .ok parts ∧
        CreateMessagesWithSplit fuel tok p input o =
          .ok (parts.map (CreateMessages p)) := by
    intro a ha
    have hpos := AllowedInputTokens_pos tok p a ha
    obtain ⟨parts, hparts⟩ :=
      splitLoop_terminates encoder a (by omega) fuel tokens [] hf
    have hs : splitStringWithTokensLimit fuel tok input a = .ok parts := by
      simp only [splitStringWithTokensLimit, hNew, hIn, hparts]
    exact ⟨parts, hs, CreateMessagesWithSplit_of_ok fuel tok p input o a parts ha hs⟩
  refine ⟨⟨?_, ?_⟩, fun e he => CreateMessagesWithSplit_of_error fuel tok p input o e he,
    hok⟩
  · rintro ⟨e, he⟩
    cases hA : AllowedInputTokens tok p with
    | error e' => exact ⟨e', rfl⟩
    | ok a =>
      obtain ⟨parts, _, hc⟩ := hok a hA
      rw [hc] at he
      cases he
  · rintro ⟨e, he⟩
    exact ⟨e, CreateMessagesWithSplit_of_error fuel tok p input o e he⟩

theorem CreateMessagesWithSplit_spec_witness :
    ((∃ e, CreateMessagesWithSplit 6 charTokenizer translatePrompt "hello" 0 = .fail e) ↔
      (∃ e, AllowedInputTokens charTokenizer translatePrompt = .error e)) ∧
    (∀ e, AllowedInputTokens charTokenizer translatePrompt = .error e →
      CreateMessagesWithSplit 6 charTokenizer translatePrompt "hello" 0 = .fail e) ∧
    (∀ a, AllowedInputTokens charTokenizer translatePrompt = .ok a →
      ∃ parts, splitStringWithTokensLimit 6 charTokenizer "hello" a = .ok parts ∧
        CreateMessagesWithSplit 6 charTokenizer translatePrompt "hello" 0 =
          .ok (parts.map (CreateMessages translatePrompt))) :=
  CreateMessagesWithSplit_spec charTokenizer charEncoder translatePrompt "hello"
    [104, 101, 108, 108, 111] 6 0 rfl rfl (by decide)

/-! ## The segments and the context window -/

theorem wrapInt_periodic (x k : Int) :
    wrapInt (x + k * 18446744073709551616) = wrapInt x := by
  unfold wrapInt; omega

theorem AllowedInputTokens_wrap (tok : Tokenizer) (encoder : Encoder) (p : Prompt)
    (hNew : tok.NewEncoder = .ok encoder)
    (hEnc : ∀ m ∈ p.Messages, ∃ ts, encoder.Encode m.Content = .ok ts) :
    AllowedInputTokens tok p =
      if wrapInt (4096 - promptTokenCount encoder p - p.MaxTokens) ≤ 0 then
        .error (.budget (wrapInt (4096 - promptTokenCount encoder p - p.MaxTokens)))
      else .ok (wrapInt (4096 - promptTokenCount encoder p - p.MaxTokens)) := by
  obtain ⟨k, hk⟩ := CountTokens_ok tok encoder p hNew hEnc
  obtain ⟨k1, hk1⟩ := wrapInt_eq ((promptTokenCount encoder p : Int)
    + k * 18446744073709551616 + p.MaxTokens)
  have hres : wrapInt (4096 - wrapInt ((promptTokenCount encoder p : Int)
      + k * 18446744073709551616 + p.MaxTokens)) =
      wrapInt (4096 - promptTokenCount encoder p - p.MaxTokens) := by
    rw [hk1, ← wrapInt_periodic (4096 - promptTokenCount encoder p - p.MaxTokens)
      (-k - k1)]
    congr 1
    ring
  simp only [AllowedInputTokens, hk, hres]

theorem countLoop_encodes (encoder : Encoder) (messages : List PromptMessage)
    (count c : Int) (h : countLoop encoder messages count = .ok c) :
    ∀ m ∈ messages, ∃ ts, encoder.Encode m.Content = .ok ts := by
  induction messages generalizing count with
  | nil => simp
  | cons m rest ih =>
    rw [countLoop] at h
    cases hE : encoder.Encode m.Content with
    | error e => rw [hE] at h; cases h
    | ok ts =>
      rw [hE] at h
      intro m' hm'
      rcases List.mem_cons.mp hm' with rfl | hm'
      · exact ⟨ts, hE⟩
      · exact ih _ h m' hm'

theorem AllowedInputTokens_encodes (tok : Tokenizer) (encoder : Encoder) (p : Prompt)
    (a : Int) (hNew : tok.NewEncoder = .ok encoder)
    (h : AllowedInputTokens tok p = .ok a) :
    ∀ m ∈ p.Messages, ∃ ts, encoder.Encode m.Content = .ok ts := by
  unfold AllowedInputTokens at h
  cases hC : CountTokens tok p with
  | error e => rw [hC] at h; cases h
  | ok c =>
    simp only [CountTokens, hNew] at hC
    exact countLoop_encodes encoder p.Messages 0 c hC

/-- C10, as amended: when `MaxTokens` is a 64 bit integer, the sum of the
prompt token count and `MaxTokens` is at most 2^63 + 4096 (no wrap-around to
a positive budget), the tokenizer encodes the text of every decoded chunk back
to no more tokens than the chunk holds, and `CreateMessagesWithSplit` succeeds,
then the returned lists are the expansions of the segments decoded from a cut
of the input's token sequence into chunks, and every segment fits:
promptTokens + MaxTokens + (tokens of the segment) <= 4096, both for the tokens
the segment was decoded from and for the token count of its text. -/
theorem CreateMessagesWithSplit_fits (tok : Tokenizer) (encoder : Encoder) (p : Prompt)
    (input : String) (tokens : List Int) (fuel : Nat) (o : Int)
    (lists : List (List ChatCompletionMessage))
    (hNew : tok.NewEncoder = .ok encoder) (hIn : encoder.Encode input = .ok tokens)
    (hInt : -9223372036854775808 ≤ p.MaxTokens)
    (hhi : (promptTokenCount encoder p : Int) + p.MaxTokens ≤ 4096 + 9223372036854775808)
    (hBack : ∀ c : List Int, c <:+: tokens →
      ∃ ts, encoder.Encode (encoder.Decode c) = .ok ts ∧ ts.length ≤ c.length)
    (hok : CreateMessagesWithSplit fuel tok p input o = .ok lists) :
    ∃ chunks : List (List Int),
      chunks.flatten = tokens ∧
      lists = chunks.map (fun c => CreateMessages p (encoder.Decode c)) ∧
      ∀ c ∈ chunks,
        (promptTokenCount encoder p : Int) + p.MaxTokens + c.length ≤ 4096 ∧
        (promptTokenCount encoder p : Int) + p.MaxTokens
          + tokenCount encoder (encoder.Decode c) ≤ 4096 := by
  cases hA : AllowedInputTokens tok p with
  | error e =>
    rw [CreateMessagesWithSplit_of_error fuel tok p input o e hA] at hok
    cases hok
  | ok a =>
    have hEnc := AllowedInputTokens_encodes tok encoder p a hNew hA
    have hpos := AllowedInputTokens_pos tok p a hA
    have ha : a = 4096 - promptTokenCount encoder p - p.MaxTokens := by
      rw [AllowedInputTokens_wrap tok encoder p hNew hEnc] at hA
      split at hA
      · cases hA
      · rename_i hw
        cases hA
        unfold wrapInt at hw ⊢
        omega
    cases hS : splitStringWithTokensLimit fuel tok input a with
    | fail e => simp [CreateMessagesWithSplit, hA, hS] at hok
    | panic => simp [CreateMessagesWithSplit, hA, hS] at hok
    | outOfFuel => simp [CreateMessagesWithSplit, hA, hS] at hok
    | ok parts =>
      rw [CreateMessagesWithSplit_of_ok fuel tok p input o a parts hA hS] at hok
      simp only [splitStringWithTokensLimit, hNew, hIn] at hS
      obtain ⟨chunks, hparts, hjoin, hall⟩ :=
        splitLoop_chunks encoder a (by omega) fuel tokens [] parts hS
      refine ⟨chunks, hjoin, ?_, ?_⟩
      · rw [← Run.ok.inj hok, hparts]
        simp
      · intro c hc
        have hlen := (hall c hc).2
        obtain ⟨ts, hts, hle⟩ := hBack c (hjoin ▸ List.infix_of_mem_flatten hc)
        have hcount : tokenCount encoder (encoder.Decode c) = ts.length := by
          simp only [tokenCount, hts]
        rw [hcount]
        have hle' : (ts.length : Int) ≤ c.length := by exact_mod_cast hle
        exact ⟨by omega, by omega⟩

theorem CreateMessagesWithSplit_fits_witness :
    ∃ chunks : List (List Int),
      chunks.flatten = [104, 101, 108, 108, 111] ∧
      [CreateMessages translatePrompt "hello"] =
        chunks.map (fun c => CreateMessages translatePrompt (charEncoder.Decode c)) ∧
      ∀ c ∈ chunks,
        (promptTokenCount charEncoder translatePrompt : Int)
          + translatePrompt.MaxTokens + c.length ≤ 4096 ∧
        (promptTokenCount charEncoder translatePrompt : Int)
          + translatePrompt.MaxTokens
          + tokenCount charEncoder (charEncoder.Decode c) ≤ 4096 :=
  CreateMessagesWithSplit_fits charTokenizer charEncoder translatePrompt "hello"
    [104, 101, 108, 108, 111] 6 0 [CreateMessages translatePrompt "hello"] rfl rfl
    (by decide) (by decide)
    (fun c _ => ⟨_, rfl, by simp [charEncoder]⟩)
    (by decide)

theorem bigPrompt_encodes (encoder : Encoder) (t : Int)
    (ha : encoder.Encode "a" = .ok [t]) :
    ∀ m ∈ bigPrompt.Messages, ∃ ts, encoder.Encode m.Content = .ok ts := by
  intro m hm
  rw [List.eq_of_mem_replicate hm]
  exact ⟨[t], ha⟩

theorem bigPrompt_tokens (encoder : Encoder) (t : Int)
    (ha : encoder.Encode "a" = .ok [t]) : promptTokenCount encoder bigPrompt = 5000 := by
  simp only [promptTokenCount, bigPrompt, List.map_replicate, tokenCount, ha,
    List.sum_replicate, List.length_singleton, smul_eq_mul, mul_one]

theorem bigPrompt_allowed (tok : Tokenizer) (encoder : Encoder) (t : Int)
    (hNew : tok.NewEncoder = .ok encoder) (ha : encoder.Encode "a" = .ok [t]) :
    AllowedInputTokens tok bigPrompt = .ok 9223372036854774905 := by
  rw [AllowedInputTokens_wrap tok encoder bigPrompt hNew (bigPrompt_encodes encoder t ha),
    bigPrompt_tokens encoder t ha]
  rfl

theorem bigPrompt_split (tok : Tokenizer) (encoder : Encoder) (t : Int)
    (hNew : tok.NewEncoder = .ok encoder) (ha : encoder.Encode "a" = .ok [t]) :
    CreateMessagesWithSplit 2 tok bigPrompt "a" 0 =
      .ok [CreateMessages bigPrompt (encoder.Decode [t])] := by
  have hs : splitStringWithTokensLimit 2 tok "a" 9223372036854774905 =
      .ok [encoder.Decode [t]] := by
    simp [splitStringWithTokensLimit, hNew, ha, splitLoop]
  rw [CreateMessagesWithSplit_of_ok 2 tok bigPrompt "a" 0 _ _
    (bigPrompt_allowed tok encoder t hNew ha) hs]
  rfl

/-- C10 fails as stated: `bigPrompt` has 5000 messages of the one token "a",
so promptTokens = 5000, and promptTokens + MaxTokens wraps around;
`AllowedInputTokens` returns the positive budget 9223372036854774905 and
`CreateMessagesWithSplit` succeeds on the input "a" with one segment, "a", of
one token, although promptTokens + MaxTokens + 1 exceeds 4096. -/
theorem CreateMessagesWithSplit_exceeds_window :
    AllowedInputTokens charTokenizer bigPrompt = .ok 9223372036854774905 ∧
    splitStringWithTokensLimit 2 charTokenizer "a" 9223372036854774905 = .ok ["a"] ∧
    CreateMessagesWithSplit 2 charTokenizer bigPrompt "a" 0 =
      .ok [CreateMessages bigPrompt "a"] ∧
    promptTokenCount charEncoder bigPrompt = 5000 ∧
    tokenCount charEncoder "a" = 1 ∧
    ¬ ((promptTokenCount charEncoder bigPrompt : Int) + bigPrompt.MaxTokens
        + tokenCount charEncoder "a" ≤ 4096) := by
  refine ⟨bigPrompt_allowed charTokenizer charEncoder 97 rfl rfl, by decide,
    bigPrompt_split charTokenizer charEncoder 97 rfl rfl,
    bigPrompt_tokens charEncoder 97 rfl, rfl, ?_⟩
  rw [bigPrompt_tokens charEncoder 97 rfl]
  decide

/-- The condition on the tokenizer in the bound on the segments cannot be
dropped: under the byte-level tokenizer, `narrowPrompt` leaves a budget of one
token, the two-byte input "é" is cut inside the character, each segment decodes
to U+FFFD, whose text has three tokens, and 1 + 4094 + 3 exceeds 4096 although
no integer wraps. -/
theorem narrowPrompt_segment_text_exceeds :
    AllowedInputTokens byteTokenizer narrowPrompt = .ok 1 ∧
    byteEncoder.Encode "é" = .ok [195, 169] ∧
    splitStringWithTokensLimit 3 byteTokenizer "é" 1 = .ok ["�", "�"] ∧
    CreateMessagesWithSplit 3 byteTokenizer narrowPrompt "é" 0 =
      .ok [[{ Role := "user", Content := "�" }],
           [{ Role := "user", Content := "�" }]] ∧
    tokenCount byteEncoder "�" = 3 ∧
    ¬ ((promptTokenCount byteEncoder narrowPrompt : Int) + narrowPrompt.MaxTokens
        + tokenCount byteEncoder "�" ≤ 4096) := by
  refine ⟨rfl, rfl, by decide, by decide, by decide, by decide⟩

/-! ## A limit that is not positive -/

theorem splitLoop_zero_limit (encoder : Encoder) (fuel : Nat) (encoded : List Int)
    (parts : List String) (hne : encoded ≠ []) :
    splitLoop encoder fuel encoded 0 parts = .outOfFuel := by
  induction fuel generalizing parts with
  | zero => rfl
  | succ fuel ih =>
    have h0 : encoded.length ≠ 0 := fun h => hne (List.length_eq_zero.mp h)
    have h1 : ¬ (encoded.length : Int) ≤ 0 := by omega
    rw [splitLoop, if_neg h0, if_neg h1, if_neg (by decide)]
    exact ih _

theorem splitLoop_negative_limit (encoder : Encoder) (fuel : Nat) (encoded : List Int)
    (tokensLimit : Int) (parts : List String) (hne : encoded ≠ [])
    (hl : tokensLimit < 0) :
    splitLoop encoder (fuel + 1) encoded tokensLimit parts = .panic := by
  have h0 : encoded.length ≠ 0 := fun h => hne (List.length_eq_zero.mp h)
  have h1 : ¬ (encoded.length : Int) ≤ tokensLimit := by omega
  rw [splitLoop, if_neg h0, if_neg h1, if_pos hl]

/-- C9, as amended: `splitStringWithTokensLimit` has no check of its limit and
reports no error for a limit <= 0 (tokenizer succeeding): on an empty token
sequence it returns zero segments; on a non-empty one it never returns for the
limit 0 and panics on the slice bound for a negative limit. The error for an
exhausted budget comes from `AllowedInputTokens`, whose result is positive
whenever it is not an error, and `CreateMessagesWithSplit` returns that error. -/
theorem splitStringWithTokensLimit_nonpositive (tok : Tokenizer) (encoder : Encoder)
    (s : String) (tokens : List Int) (tokensLimit : Int)
    (hNew : tok.NewEncoder = .ok encoder) (hEnc : encoder.Encode s = .ok tokens)
    (hl : tokensLimit ≤ 0) :
    (∀ fuel e, splitStringWithTokensLimit fuel tok s tokensLimit ≠ .fail e) ∧
    (tokens = [] → ∀ fuel,
      splitStringWithTokensLimit (fuel + 1) tok s tokensLimit = .ok []) ∧
    (tokens ≠ [] → tokensLimit = 0 → ∀ fuel,
      splitStringWithTokensLimit fuel tok s tokensLimit = .outOfFuel) ∧
    (tokens ≠ [] → tokensLimit < 0 → ∀ fuel,
      splitStringWithTokensLimit (fuel + 1) tok s tokensLimit = .panic) ∧
    (∀ p a, AllowedInputTokens tok p = .ok a → 0 < a) ∧
    (∀ p e fuel input o, AllowedInputTokens tok p = .error e →
      CreateMessagesWithSplit fuel tok p input o = .fail e) := by
  have hnil : tokens = [] → ∀ fuel,
      splitStringWithTokensLimit (fuel + 1) tok s tokensLimit = .ok [] := by
    intro ht fuel
    subst ht
    simp only [splitStringWithTokensLimit, hNew, hEnc, splitLoop_nil]
  have hzero : tokens ≠ [] → tokensLimit = 0 → ∀ fuel,
      splitStringWithTokensLimit fuel tok s tokensLimit = .outOfFuel := by
    intro ht h0 fuel
    subst h0
    simp only [splitStringWithTokensLimit, hNew, hEnc,
      splitLoop_zero_limit encoder fuel tokens [] ht]
  have hneg : tokens ≠ [] → tokensLimit < 0 → ∀ fuel,
      splitStringWithTokensLimit (fuel + 1) tok s tokensLimit = .panic := by
    intro ht h0 fuel
    simp only [splitStringWithTokensLimit, hNew, hEnc,
      splitLoop_negative_limit encoder fuel tokens tokensLimit [] ht h0]
  refine ⟨?_, hnil, hzero, hneg, fun p a h => AllowedInputTokens_pos tok p a h,
    fun p e fuel input o h => CreateMessagesWithSplit_of_error fuel tok p input o e h⟩
  intro fuel e h
  cases fuel with
  | zero => simp [splitStringWithTokensLimit, hNew, hEnc, splitLoop] at h
  | succ fuel =>
    by_cases ht : tokens = []
    · rw [hnil ht fuel] at h
      cases h
    · rcases lt_or_eq_of_le hl with hlt | heq
      · rw [hneg ht hlt fuel] at h
        cases h
      · rw [hzero ht heq (fuel + 1)] at h
        cases h

theorem splitStringWithTokensLimit_nonpositive_witness :
    (∀ fuel e, splitStringWithTokensLimit fuel charTokenizer "a" 0 ≠ .fail e) ∧
    (([97] : List Int) = [] → ∀ fuel,
      splitStringWithTokensLimit (fuel + 1) charTokenizer "a" 0 = .ok []) ∧
    (([97] : List Int) ≠ [] → (0 : Int) = 0 → ∀ fuel,
      splitStringWithTokensLimit fuel charTokenizer "a" 0 = .outOfFuel) ∧
    (([97] : List Int) ≠ [] → (0 : Int) < 0 → ∀ fuel,
      splitStringWithTokensLimit (fuel + 1) charTokenizer "a" 0 = .panic) ∧
    (∀ p a, AllowedInputTokens charTokenizer p = .ok a → 0 < a) ∧
    (∀ p e fuel input o, AllowedInputTokens charTokenizer p = .error e →
      CreateMessagesWithSplit fuel charTokenizer p input o = .fail e) :=
  splitStringWithTokensLimit_nonpositive charTokenizer charEncoder "a" [97] 0 rfl rfl
    (by decide)

/-- C9 fails as stated: for the empty input and the limits 0 and -1
`splitStringWithTokensLimit` returns zero segments and a nil error. -/
theorem splitStringWithTokensLimit_no_error :
    splitStringWithTokensLimit 1 charTokenizer "" 0 = .ok [] ∧
    splitStringWithTokensLimit 1 charTokenizer "" (-1) = .ok [] := by
  decide

/-! ## The interactive loop -/

/-- C3 on the code: for the input lines " hello " and "again", both answered
with one choice, the history after the two iterations holds the two user
messages only, and the second request carries the two user messages without the
assistant reply to the first. -/
theorem stdChatLoop_drops_assistant_reply :
    (stdChatLoop echoChat none [" hello ", "again"]).2.messages =
      [{ Role := "user", Content := "hello" }, { Role := "user", Content := "again" }] ∧
    (stdChatLoop echoChat none [" hello ", "again"]).2.requests.map
        (fun r => r.Messages) =
      [[{ Role := "user", Content := "hello" }],
       [{ Role := "user", Content := "hello" }, { Role := "user", Content := "again" }]] ∧
    (stdChatLoop echoChat none [" hello ", "again"]).2.printed =
      ["user: ", "assistant: hi\n", "user: ", "assistant: hi\n", "user: "] := by
  decide

/-! ## Template names -/

/-- C8 on the code: the file `a.yml.yaml` ends in ".yaml" and is registered
under the name "a", both suffixes having been removed, which is neither
`a.yml.yaml` without ".yaml" nor without ".yml". -/
theorem ReadPromptsInDir_strips_twice :
    HasSuffix "a.yml.yaml" ".yaml" = true ∧
    promptName "a.yml.yaml" = "a" ∧
    ReadPromptsInDir exampleFS "prompts" = .ok [("a", translatePrompt)] ∧
    "a" ++ ".yaml" ≠ "a.yml.yaml" ∧ "a" ++ ".yml" ≠ "a.yml.yaml" := by
  refine ⟨by decide, by decide, rfl, by decide, by decide⟩

end Aichat
